import Mathlib

/-!
Verification of the musically-backend score-log / cache / retry core.

Shallow embedding of:
* `app/db/database.py` — `execute_with_retry` (retry executor) and its
  backoff delay formulas (`execute_with_retry` lines 136-176,
  `get_db_with_retry` lines 76-122).
* `app/services/hybrid_cache_service.py` — the multi-tier cache
  (`set`, `get`, statistics counters).
* `app/services/game_service.py` — the append-only score-log store
  (`create_score_log`, `get_score_logs`, `get_game_leaderboard_from_logs`,
  `get_latest_games_played_from_logs`).
* `app/api/endpoints/game.py` — the `POST /score-logs` handler.
* `alembic/versions/ba8eeb90871a_...py` — the partition auto-creation
  trigger (`auto_create_game_score_logs_partition`).

UUIDs are modelled as `Nat`, SQL `DECIMAL` as `ℚ`, wall-clock timestamps as
`ℚ` (Python `time.time()` floats) or `Nat` (database `TIMESTAMP`s, which are
only ever compared).  Python exceptions become sum types; external tiers
(DynamoDB, Redis) are modelled by an explicit per-call read outcome.
-/

/-! ## Generic list helpers: stable insertion sort and pagination

Python `sorted` and SQL `ORDER BY` are modelled by a stable insertion
sort over a boolean "less or equal" comparator. -/

def insertBy {α : Type} (le : α → α → Bool) (x : α) : List α → List α
  | [] => [x]
  | y :: ys => if le x y then x :: y :: ys else y :: insertBy le x ys

def sortBy {α : Type} (le : α → α → Bool) : List α → List α
  | [] => []
  | x :: xs => insertBy le x (sortBy le xs)

/-- `LIMIT per_page OFFSET (page-1)*per_page`, the pagination convention of
the repository (1-based pages). -/
def paginate {α : Type} (l : List α) (page per_page : Nat) : List α :=
  (l.drop ((page - 1) * per_page)).take per_page

/-! ## Retry/Backoff executor — `app/db/database.py`

`execute_with_retry(query_func, max_retries=3)` runs `query_func` once per
iteration of `for attempt in range(max_retries)`.  `OperationalError` /
`TimeoutError` are the transient class; the error message is scanned for
cold-database indicators; on the first cold transient failure a wake probe
may run and, when it succeeds, the loop `continue`s without sleeping.
Otherwise, failures before the last iteration sleep
`1.0 + (attempt * 0.5) + random.uniform(0, 0.5)` seconds and retry; after
the loop the last transient error is re-raised.  Any other exception is
re-raised immediately.

The operation is modelled as `op : Nat → DbOutcome α` giving the outcome of
its `attempt`-th invocation; `jitter attempt` stands for the value drawn by
`random.uniform`; `wakeOk` says whether the wake probe (when triggered)
returns `True`. -/

inductive DbOutcome (α : Type) where
  | ok (a : α)
  | transientError (cold : Bool)
  | fatalError
deriving Repr

/-- Result of a run: how often the operation was invoked and which sleep
delays were performed, ending in a returned value (`success`), the
re-raised last transient error (`exhausted`) or an immediately propagated
non-transient error (`fatal`). -/
inductive RetryResult (α : Type) where
  | success (a : α) (calls : Nat) (delays : List ℚ)
  | exhausted (calls : Nat) (delays : List ℚ)
  | fatal (calls : Nat) (delays : List ℚ)
deriving Repr

/-- Account one more invocation (and optionally one sleep) at the front of a
run. -/
def RetryResult.bump {α : Type} (d : Option ℚ) : RetryResult α → RetryResult α
  | .success a c ds => .success a (c + 1) (d.toList ++ ds)
  | .exhausted c ds => .exhausted (c + 1) (d.toList ++ ds)
  | .fatal c ds => .fatal (c + 1) (d.toList ++ ds)

/-- `database.py` line 163: `delay = 1.0 + (attempt * 0.5) + random.uniform(0, 0.5)`
— the sleep inside `execute_with_retry`. -/
def executeRetryDelay (attempt : Nat) (jitter : ℚ) : ℚ :=
  1 + (attempt : ℚ) * (1 / 2) + jitter

/-- `database.py` line 105: `delay = base_delay * (2 ** attempt) + random.uniform(0, 1)`
— the sleep inside `get_db_with_retry` (session acquisition), the only
exponential-backoff formula in the file. -/
def getDbRetryDelay (base_delay : ℚ) (attempt : Nat) (jitter : ℚ) : ℚ :=
  base_delay * 2 ^ attempt + jitter

/-- The loop body of `execute_with_retry`, by recursion on the number of
remaining iterations; `attempt` is the current loop index and `warmed`
mirrors `database_warmed`. -/
def execRetryGo {α : Type} (op : Nat → DbOutcome α) (jitter : Nat → ℚ)
    (wakeOk : Bool) (max_retries : Nat) : Nat → Nat → Bool → RetryResult α
  | _, 0, _ => .exhausted 0 []
  | attempt, remaining + 1, warmed =>
    match op attempt with
    | .ok a => .success a 1 []
    | .fatalError => .fatal 1 []
    | .transientError cold =>
      if cold && !warmed && (attempt == 0) && wakeOk then
        RetryResult.bump none
          (execRetryGo op jitter wakeOk max_retries (attempt + 1) remaining true)
      else if attempt + 1 < max_retries then
        RetryResult.bump (some (executeRetryDelay attempt (jitter attempt)))
          (execRetryGo op jitter wakeOk max_retries (attempt + 1) remaining warmed)
      else
        .exhausted 1 []

/-- `execute_with_retry(query_func, max_retries)` from `app/db/database.py`. -/
def execute_with_retry {α : Type} (op : Nat → DbOutcome α) (jitter : Nat → ℚ)
    (wakeOk : Bool) (max_retries : Nat) : RetryResult α :=
  execRetryGo op jitter wakeOk max_retries 0 max_retries false

/-! ## Hybrid multi-tier cache — `app/services/hybrid_cache_service.py`

The process-local memory tier (`_memory_cache`, a dict of
`{value, expires_at, created_at}`) is modelled as an association list kept
in dict insertion order; the statistics dict `_cache_stats` becomes five
counters.  The DynamoDB and Redis tiers are external services: each `get`
takes the outcome of reading them (`TierRead`), where `failure` stands for
an exception raised by the client library (caught by the inner
`try/except` and treated as a miss of that tier).  Values are kept in
their serialized (`json.dumps`) form, so memory-tier deserialization
always succeeds exactly as it does for values written through `set`. -/

structure MemEntry where
  value : String
  expires_at : ℚ
  created_at : ℚ
deriving Repr, DecidableEq

structure CacheState where
  memory : List (String × MemEntry)
  hits : Nat
  misses : Nat
  memory_hits : Nat
  dynamo_hits : Nat
  redis_hits : Nat
deriving Repr, DecidableEq

/-- Tier availability flags and the memory-tier settings fixed by
`_initialize`: `max_memory_items = 1000`, `memory_ttl = 300`. -/
structure CacheConfig where
  max_memory_items : Nat
  memory_ttl : ℚ
  hasDynamo : Bool
  redis_available : Bool
deriving Repr, DecidableEq

/-- Outcome of one read against an external tier. -/
inductive TierRead (α : Type) where
  | hit (a : α)
  | missing
  | failure
deriving Repr, DecidableEq

/-- A DynamoDB cache item as stored by `set`. -/
structure DynamoItem where
  cache_value : String
  expires_at : ℚ
deriving Repr, DecidableEq

def memLookup (m : List (String × MemEntry)) (k : String) : Option MemEntry :=
  (m.find? (fun p => p.1 == k)).map (fun p => p.2)

def memErase (m : List (String × MemEntry)) (k : String) :
    List (String × MemEntry) :=
  m.filter (fun p => p.1 != k)

/-- Python dict assignment: overwrite in place when the key exists,
otherwise append in insertion order. -/
def memInsert (m : List (String × MemEntry)) (k : String) (e : MemEntry) :
    List (String × MemEntry) :=
  if m.any (fun p => p.1 == k) then
    m.map (fun p => if p.1 == k then (k, e) else p)
  else
    m ++ [(k, e)]

/-- `_cleanup_memory_cache`: drop entries with `expires_at < current_time`,
then, if more than `max_memory_items` remain, drop the oldest-inserted
entries (sorted by `created_at`) down to the ceiling. -/
def cleanup_memory_cache (cfg : CacheConfig) (m : List (String × MemEntry))
    (now : ℚ) : List (String × MemEntry) :=
  let m1 := m.filter (fun p => !(p.2.expires_at < now))
  if cfg.max_memory_items < m1.length then
    let victims := (sortBy (fun a b => decide (a.2.created_at ≤ b.2.created_at)) m1
      ).take (m1.length - cfg.max_memory_items) |>.map (fun p => p.1)
    m1.filter (fun p => !(victims.contains p.1))
  else
    m1

namespace HybridCacheService

/-- `HybridCacheService.set`: store in memory only when the requested TTL
fits the memory ceiling (`expire_seconds <= self.memory_ttl`); DynamoDB and
Redis writes are external side effects whose failures are swallowed, so the
call returns `True`. -/
def set (cfg : CacheConfig) (st : CacheState) (key : String) (value : String)
    (expire_seconds : ℚ) (now : ℚ) : Bool × CacheState :=
  let expires_at := now + expire_seconds
  let st1 :=
    if expire_seconds ≤ cfg.memory_ttl then
      let cleaned := cleanup_memory_cache cfg st.memory now
      { st with memory := memInsert cleaned key ⟨value, expires_at, now⟩ }
    else
      st
  (true, st1)

/-- Tier-miss epilogue of `get`: count a miss and return `None`. -/
def getMiss (st : CacheState) : Option String × CacheState :=
  (none, { st with misses := st.misses + 1 })

/-- Tier 3 of `get`: the Redis fallback (read failures are swallowed and
become a miss). -/
def getRedis (cfg : CacheConfig) (st : CacheState)
    (redisResp : TierRead String) : Option String × CacheState :=
  if cfg.redis_available then
    match redisResp with
    | .hit v =>
      (some v, { st with hits := st.hits + 1, redis_hits := st.redis_hits + 1 })
    | .missing => getMiss st
    | .failure => getMiss st
  else
    getMiss st

/-- Tier 2 of `get`: DynamoDB; an unexpired item repopulates the memory
tier when its remaining TTL fits the memory ceiling; expired items and
read failures fall through to Redis. -/
def getDynamo (cfg : CacheConfig) (st : CacheState) (key : String) (now : ℚ)
    (dynamoResp : TierRead DynamoItem) (redisResp : TierRead String) :
    Option String × CacheState :=
  if cfg.hasDynamo then
    match dynamoResp with
    | .hit item =>
      if now < item.expires_at then
        let st1 :=
          if item.expires_at - now ≤ cfg.memory_ttl then
            { st with memory :=
                memInsert st.memory key ⟨item.cache_value, item.expires_at, now⟩ }
          else
            st
        (some item.cache_value,
          { st1 with hits := st1.hits + 1, dynamo_hits := st1.dynamo_hits + 1 })
      else
        getRedis cfg st redisResp
    | .missing => getRedis cfg st redisResp
    | .failure => getRedis cfg st redisResp
  else
    getRedis cfg st redisResp

/-- `HybridCacheService.get`: memory tier first (`expires_at > current_time`
hits; an expired entry is deleted and the lookup falls through), then
DynamoDB, then Redis, then a counted miss. -/
def get (cfg : CacheConfig) (st : CacheState) (key : String) (now : ℚ)
    (dynamoResp : TierRead DynamoItem) (redisResp : TierRead String) :
    Option String × CacheState :=
  match memLookup st.memory key with
  | some data =>
    if now < data.expires_at then
      (some data.value,
        { st with hits := st.hits + 1, memory_hits := st.memory_hits + 1 })
    else
      getDynamo cfg { st with memory := memErase st.memory key } key now
        dynamoResp redisResp
  | none => getDynamo cfg st key now dynamoResp redisResp

/-- The counter block of `get_stats` (the derived `hit_rate` percentage and
availability flags are display-only). -/
structure StatsView where
  total_requests : Nat
  hits : Nat
  misses : Nat
  memory_hits : Nat
  dynamo_hits : Nat
  redis_hits : Nat
  memory_cache_size : Nat
deriving Repr, DecidableEq

def get_stats (st : CacheState) : StatsView :=
  { total_requests := st.hits + st.misses
    hits := st.hits
    misses := st.misses
    memory_hits := st.memory_hits
    dynamo_hits := st.dynamo_hits
    redis_hits := st.redis_hits
    memory_cache_size := st.memory.length }

end HybridCacheService

/-- Arguments of one `get` call, with the outcomes of its external-tier
reads. -/
structure GetArgs where
  key : String
  now : ℚ
  dynamoResp : TierRead DynamoItem
  redisResp : TierRead String

def runGets (cfg : CacheConfig) : CacheState → List GetArgs → CacheState
  | st, [] => st
  | st, a :: rest =>
    runGets cfg (HybridCacheService.get cfg st a.key a.now a.dynamoResp a.redisResp).2 rest

/-- Fresh (unexpired) hit in the memory tier. -/
def memFresh (st : CacheState) (key : String) (now : ℚ) : Prop :=
  ∃ e, memLookup st.memory key = some e ∧ now < e.expires_at

/-- Fresh hit in the DynamoDB tier. -/
def dynamoFresh (cfg : CacheConfig) (d : TierRead DynamoItem) (now : ℚ) : Prop :=
  cfg.hasDynamo = true ∧ ∃ item, d = .hit item ∧ now < item.expires_at

/-- Hit in the Redis tier. -/
def redisFresh (cfg : CacheConfig) (r : TierRead String) : Prop :=
  cfg.redis_available = true ∧ ∃ v, r = .hit v

/-- Sum of the per-tier hit counters. -/
def tierSum (st : CacheState) : Nat :=
  st.memory_hits + st.dynamo_hits + st.redis_hits

/-! ## Score-log store — `app/services/game_service.py`

`game_score_logs` rows (`ScoreLogEntry`) together with the three tables the
write path consults: `games (id, title)`, `content (id, title)` and the
`content_games` association, modelled as `(game_id, content_id)` pairs.
SQL `INSERT` appends to `score_logs`. -/

structure ScoreLogEntry where
  id : Nat
  user_id : Nat
  game_id : Nat
  content_id : Nat
  score : ℚ
  accuracy : Option ℚ
  attempts : Nat
  start_time : Option Nat
  end_time : Option Nat
  cycles : Option Nat
  level_config : Option String
  created_at : Nat
deriving Repr, DecidableEq

structure Store where
  games : List (Nat × String)
  contents : List (Nat × String)
  content_games : List (Nat × Nat)
  score_logs : List ScoreLogEntry
deriving Repr, DecidableEq

/-- The request schema `GameScoreLogCreate`. -/
structure GameScoreLogCreate where
  game_id : Nat
  content_id : Nat
  score : ℚ
  accuracy : Option ℚ
  attempts : Nat
  start_time : Option Nat
  end_time : Option Nat
  cycles : Option Nat
  level_config : Option String
deriving Repr, DecidableEq

namespace GameService

/-- `GameService.create_score_log`: verify that the game, the content and
their association exist (first matching row), else return `None` with no
side effect; on success insert one row with the server-generated
`record_id`/`created_at` and return it. -/
def create_score_log (st : Store) (user_id : Nat) (d : GameScoreLogCreate)
    (record_id created_at : Nat) : Option (ScoreLogEntry × Store) :=
  if (st.games.find? (fun g => g.1 == d.game_id)).isNone then none
  else if (st.contents.find? (fun c => c.1 == d.content_id)).isNone then none
  else if (st.content_games.find?
      (fun cg => cg.1 == d.game_id && cg.2 == d.content_id)).isNone then none
  else
    let e : ScoreLogEntry :=
      { id := record_id, user_id := user_id, game_id := d.game_id,
        content_id := d.content_id, score := d.score, accuracy := d.accuracy,
        attempts := d.attempts, start_time := d.start_time,
        end_time := d.end_time, cycles := d.cycles,
        level_config := d.level_config, created_at := created_at }
    some (e, { st with score_logs := st.score_logs ++ [e] })

/-- The `WHERE` clause of `get_score_logs`: optional filters combined by
`AND`. -/
def matchesLogFilters (user_id game_id content_id : Option Nat)
    (e : ScoreLogEntry) : Bool :=
  (match user_id with | some u => e.user_id == u | none => true) &&
  (match game_id with | some g => e.game_id == g | none => true) &&
  (match content_id with | some c => e.content_id == c | none => true)

/-- `GameService.get_score_logs`: filtered listing ordered by `created_at
DESC`, paginated; the count is taken over the unpaginated filter. -/
def get_score_logs (st : Store) (user_id game_id content_id : Option Nat)
    (page per_page : Nat) : List ScoreLogEntry × Nat :=
  let filtered := st.score_logs.filter (matchesLogFilters user_id game_id content_id)
  let ordered := sortBy (fun a b => decide (b.created_at ≤ a.created_at)) filtered
  (paginate ordered page per_page, filtered.length)

end GameService

/-- Python's `float(x) if x else None` applied to a nullable numeric column:
a stored `0` comes back as `None`. -/
def pyTruthyQ (a : Option ℚ) : Option ℚ :=
  match a with
  | some q => if q == 0 then none else some q
  | none => none

/-- The projection selected by the leaderboard query
(`gsl.user_id, score, accuracy, attempts, start_time, end_time, cycles,
level_config, created_at`). -/
structure LeaderboardRow where
  user_id : Nat
  score : ℚ
  accuracy : Option ℚ
  attempts : Nat
  start_time : Option Nat
  end_time : Option Nat
  cycles : Option Nat
  level_config : Option String
  created_at : Nat
deriving Repr, DecidableEq

def toLeaderboardRow (e : ScoreLogEntry) : LeaderboardRow :=
  { user_id := e.user_id, score := e.score, accuracy := pyTruthyQ e.accuracy,
    attempts := e.attempts, start_time := e.start_time,
    end_time := e.end_time, cycles := e.cycles,
    level_config := e.level_config, created_at := e.created_at }

def gameLogs (st : Store) (g : Nat) : List ScoreLogEntry :=
  st.score_logs.filter (fun e => e.game_id == g)

def distinct_user_ids (l : List ScoreLogEntry) : List Nat :=
  (l.map (fun e => e.user_id)).dedup

def maxScoreQ : List ℚ → Option ℚ
  | [] => none
  | x :: xs =>
    match maxScoreQ xs with
    | none => some x
    | some m => some (max x m)

/-- `MAX(score)` over a user's entries for the game. -/
def best_score (l : List ScoreLogEntry) (u : Nat) : Option ℚ :=
  maxScoreQ ((l.filter (fun e => e.user_id == u)).map (fun e => e.score))

/-- The `user_best_scores` CTE: `(user_id, MAX(score)) GROUP BY user_id
ORDER BY best_score DESC LIMIT :limit OFFSET :offset` (ties between users
are in unspecified SQL order, modelled by the stable sort). -/
def user_best_scores (st : Store) (g page per_page : Nat) : List (Nat × ℚ) :=
  let glogs := gameLogs st g
  let pairs := (distinct_user_ids glogs).filterMap
    (fun u => (best_score glogs u).map (fun b => (u, b)))
  paginate (sortBy (fun a b => decide (b.2 ≤ a.2)) pairs) page per_page

/-- `ORDER BY gsl.score DESC, gsl.created_at DESC` as a boolean
comparator. -/
def lbLe (a b : ScoreLogEntry) : Bool :=
  decide (b.score < a.score) ||
    (a.score == b.score && decide (b.created_at ≤ a.created_at))

/-- `GameService.get_game_leaderboard_from_logs`: the CTE page of
`(user_id, best_score)` pairs is joined back against the log on
`user_id = user_id AND score = best_score` (every row of a user achieving
the best score joins), ordered by score then recency; the total is the
count of distinct users. -/
def get_game_leaderboard_from_logs (st : Store) (g page per_page : Nat) :
    List LeaderboardRow × Nat :=
  let glogs := gameLogs st g
  let ubs := user_best_scores st g page per_page
  let joined := glogs.filter
    (fun e => ubs.any (fun p => p.1 == e.user_id && p.2 == e.score))
  ((sortBy lbLe joined).map toLeaderboardRow, (distinct_user_ids glogs).length)

/-- The projection of the latest-played query. -/
structure LatestGamePlayed where
  game_id : Nat
  game_name : String
  content_id : Nat
  content_name : String
  score : ℚ
  last_played_time : Nat
deriving Repr, DecidableEq

def userLogs (st : Store) (u : Nat) : List ScoreLogEntry :=
  st.score_logs.filter (fun e => e.user_id == u)

def distinct_game_ids (l : List ScoreLogEntry) : List Nat :=
  (l.map (fun e => e.game_id)).dedup

/-- `ROW_NUMBER() OVER (PARTITION BY game_id ORDER BY created_at DESC)`
keeping `rn = 1`: the most recent play of the game (`created_at` ties are
resolved in unspecified SQL order, modelled by the stable sort). -/
def latest_play (l : List ScoreLogEntry) (g : Nat) : Option ScoreLogEntry :=
  (sortBy (fun a b => decide (b.created_at ≤ a.created_at))
    (l.filter (fun e => e.game_id == g))).head?

def lookupTitle (l : List (Nat × String)) (i : Nat) : Option String :=
  (l.find? (fun p => p.1 == i)).map (fun p => p.2)

/-- `GameService.get_latest_games_played_from_logs`: one row per distinct
game (`rn = 1`), inner-joined against `games` and `content` for the names,
ordered by `created_at DESC`, paginated; the total is the count of
distinct games. -/
def get_latest_games_played_from_logs (st : Store) (u page per_page : Nat) :
    List LatestGamePlayed × Nat :=
  let ulogs := userLogs st u
  let gids := distinct_game_ids ulogs
  let rows := gids.filterMap (fun g =>
    (latest_play ulogs g).bind (fun e =>
      (lookupTitle st.games g).bind (fun gn =>
        (lookupTitle st.contents e.content_id).map (fun cn =>
          { game_id := g, game_name := gn, content_id := e.content_id,
            content_name := cn, score := e.score,
            last_played_time := e.created_at }))))
  let ordered := sortBy
    (fun a b => decide (b.last_played_time ≤ a.last_played_time)) rows
  (paginate ordered page per_page, gids.length)

/-! ## The `POST /score-logs` handler — `app/api/endpoints/game.py` -/

inductive ApiResult where
  | ok (e : ScoreLogEntry)
  | httpError (statusCode : Nat) (detail : String)
deriving Repr, DecidableEq

/-- What the handler's `try:` block does: either return the created entry
or raise an `HTTPException(status_code, detail)`. -/
inductive TryOutcome where
  | returned (e : ScoreLogEntry)
  | raisedHttp (statusCode : Nat) (detail : String)
deriving Repr, DecidableEq

def create_score_log_try (st : Store) (user_id : Nat) (d : GameScoreLogCreate)
    (record_id created_at : Nat) : TryOutcome × Store :=
  match GameService.create_score_log st user_id d record_id created_at with
  | none => (.raisedHttp 404 "Game or content not found", st)
  | some (e, st') => (.returned e, st')

/-- The `POST /score-logs` handler: its `except Exception` clause catches
*every* exception raised inside the `try:` block — `HTTPException` is an
`Exception` subclass, so the handler's own `HTTPException(404)` is caught
too — and raises the generic 500 instead. -/
def create_score_log_endpoint (st : Store) (user_id : Nat)
    (d : GameScoreLogCreate) (record_id created_at : Nat) : ApiResult × Store :=
  match create_score_log_try st user_id d record_id created_at with
  | (.returned e, st') => (.ok e, st')
  | (.raisedHttp _ _, st') =>
    (.httpError 500 "An error occurred while creating score log", st')

/-! ## Append-only invariant (C9) -/

/-- One invocation of an operation of the score-log core. -/
inductive CoreOp where
  | append (user_id : Nat) (d : GameScoreLogCreate) (record_id created_at : Nat)
  | filteredLogs (user_id game_id content_id : Option Nat) (page per_page : Nat)
  | bestScorePerUser (game_id page per_page : Nat)
  | latestDistinctGamesPlayed (user_id page per_page : Nat)

/-- Effect of a core operation on the store.  The three read operations
issue only `SELECT`s (`get_score_logs`, `get_game_leaderboard_from_logs`,
`get_latest_games_played_from_logs` execute no INSERT/UPDATE/DELETE), so
they leave the store unchanged; `create_score_log` either rejects (store
unchanged) or appends one row. -/
def applyCoreOp (st : Store) : CoreOp → Store
  | .append uid d rid t =>
    match GameService.create_score_log st uid d rid t with
    | none => st
    | some (_, st') => st'
  | .filteredLogs _ _ _ _ _ => st
  | .bestScorePerUser _ _ _ => st
  | .latestDistinctGamesPlayed _ _ _ => st

/-! ## Monthly partition auto-creation — migration `ba8eeb90871a` -/

inductive PgError where
  | duplicate_table
  | other
deriving Repr, DecidableEq

/-- `create_monthly_game_score_logs_partition(year, month)`: one atomic
`CREATE TABLE ... PARTITION OF game_score_logs FOR VALUES FROM
(start_of_month) TO (start_of_next_month)`; it fails with
`duplicate_table` when that month's partition already exists.  The state
is the set of existing monthly partitions, as `(year, month)` pairs. -/
def create_monthly_game_score_logs_partition (ym : Nat × Nat)
    (parts : List (Nat × Nat)) : Except PgError (List (Nat × Nat)) :=
  if ym ∈ parts then .error .duplicate_table else .ok (ym :: parts)

/-- The `BEFORE INSERT` trigger `auto_create_game_score_logs_partition`:
calls the creation function and swallows `duplicate_table`
(`EXCEPTION WHEN duplicate_table THEN NULL`), then returns `NEW`, so the
row insert proceeds; `.ok` is the trigger reporting success. -/
def auto_create_game_score_logs_partition (ym : Nat × Nat)
    (parts : List (Nat × Nat)) : Except PgError (List (Nat × Nat)) :=
  match create_monthly_game_score_logs_partition ym parts with
  | .ok parts' => .ok parts'
  | .error .duplicate_table => .ok parts
  | .error e => .error e

/-- A schedule of trigger invocations.  Each invocation's `CREATE TABLE`
is a single atomic DDL step (the loser of a simultaneous pair observes
`duplicate_table`), so an arbitrary concurrent schedule of the invocations
is modelled as an arbitrary sequential order of these atomic steps. -/
def run_partition_creations (months : List (Nat × Nat))
    (parts : List (Nat × Nat)) : List Bool × List (Nat × Nat) :=
  match months with
  | [] => ([], parts)
  | ym :: rest =>
    match auto_create_game_score_logs_partition ym parts with
    | .ok parts' =>
      let r := run_partition_creations rest parts'
      (true :: r.1, r.2)
    | .error _ =>
      let r := run_partition_creations rest parts
      (false :: r.1, r.2)

/-- The row built by the latest-played query for one game id (the
`rn = 1` entry joined with the two title lookups). -/
def latestRowOf (st : Store) (u g : Nat) : Option LatestGamePlayed :=
  (latest_play (userLogs st u) g).bind (fun e =>
    (lookupTitle st.games g).bind (fun gn =>
      (lookupTitle st.contents e.content_id).map (fun cn =>
        ⟨g, gn, e.content_id, cn, e.score, e.created_at⟩)))

/-- The spec's best-score example data: user 1 scored 10 then 25, user 2
scored 15, all on game 1 / content 2. -/
def exampleStoreBestScore : Store :=
  ⟨[(1, "g")], [(2, "c")], [(1, 2)],
    [⟨100, 1, 1, 2, 10, none, 1, none, none, none, none, 1⟩,
     ⟨101, 1, 1, 2, 25, none, 1, none, none, none, none, 2⟩,
     ⟨102, 2, 1, 2, 15, none, 1, none, none, none, none, 3⟩]⟩

/-- Example data for the latest-played scenario: user 9 played game 1 at
times 10 and 20 and game 2 at time 30. -/
def exampleStoreLatest : Store :=
  ⟨[(1, "g1"), (2, "g2")], [(5, "c")], [],
    [⟨100, 9, 1, 5, 3, none, 1, none, none, none, none, 10⟩,
     ⟨101, 9, 1, 5, 4, none, 1, none, none, none, none, 20⟩,
     ⟨102, 9, 2, 5, 5, none, 1, none, none, none, none, 30⟩]⟩

/-! ## Theorems -/

theorem insertBy_perm {α : Type} (le : α → α → Bool) (x : α) (l : List α) :
    (insertBy le x l).Perm (x :: l) := by
  induction l with
  | nil => simp [insertBy]
  | cons y ys ih =>
    by_cases h : le x y
    · simp [insertBy, h]
    · simp only [insertBy, h, if_neg, Bool.false_eq_true, if_false]
      exact ((ih.cons y).trans (List.Perm.swap x y ys))

theorem sortBy_perm {α : Type} (le : α → α → Bool) (l : List α) :
    (sortBy le l).Perm l := by
  induction l with
  | nil => simp [sortBy]
  | cons x xs ih =>
    exact (insertBy_perm le x (sortBy le xs)).trans (ih.cons x)

theorem insertBy_pairwise {α : Type} (le : α → α → Bool)
    (htot : ∀ a b, le a b = true ∨ le b a = true)
    (htrans : ∀ a b c, le a b = true → le b c = true → le a c = true)
    (x : α) (l : List α) (hl : l.Pairwise (fun a b => le a b = true)) :
    (insertBy le x l).Pairwise (fun a b => le a b = true) := by
  induction l with
  | nil => simp [insertBy]
  | cons y ys ih =>
    rcases List.pairwise_cons.mp hl with ⟨hy, hys⟩
    by_cases h : le x y
    · simp only [insertBy, h, if_true]
      refine List.pairwise_cons.mpr ⟨?_, hl⟩
      intro b hb
      rcases List.mem_cons.mp hb with hb | hb
      · exact hb ▸ h
      · exact htrans x y b h (hy b hb)
    · simp only [insertBy, h, Bool.false_eq_true, if_false]
      refine List.pairwise_cons.mpr ⟨?_, ih hys⟩
      intro b hb
      have hb' : b ∈ x :: ys := (insertBy_perm le x ys).mem_iff.mp hb
      rcases List.mem_cons.mp hb' with hb' | hb'
      · rcases htot x y with h' | h'
        · exact absurd h' h
        · rw [hb']; exact h'
      · exact hy b hb'

theorem sortBy_pairwise {α : Type} (le : α → α → Bool)
    (htot : ∀ a b, le a b = true ∨ le b a = true)
    (htrans : ∀ a b c, le a b = true → le b c = true → le a c = true)
    (l : List α) : (sortBy le l).Pairwise (fun a b => le a b = true) := by
  induction l with
  | nil => simp [sortBy]
  | cons x xs ih => exact insertBy_pairwise le htot htrans x (sortBy le xs) ih

theorem execRetryGo_exhausted {α : Type} (op : Nat → DbOutcome α)
    (jitter : Nat → ℚ) (wakeOk : Bool) (m : Nat)
    (hop : ∀ n, ∃ c, op n = .transientError c) :
    ∀ r a w, a + r = m →
      ∃ ds, execRetryGo op jitter wakeOk m a r w = .exhausted r ds := by
  intro r
  induction r with
  | zero => intro a w _; exact ⟨[], rfl⟩
  | succ n ih =>
    intro a w hm
    obtain ⟨c, hc⟩ := hop a
    by_cases h1 : (c && !w && (a == 0) && wakeOk) = true
    · obtain ⟨ds, hds⟩ := ih (a + 1) true (by omega)
      refine ⟨ds, ?_⟩
      simp only [execRetryGo, hc, h1, if_true, hds]
      rfl
    · by_cases h2 : a + 1 < m
      · obtain ⟨ds, hds⟩ := ih (a + 1) w (by omega)
        refine ⟨executeRetryDelay a (jitter a) :: ds, ?_⟩
        simp only [execRetryGo, hc, h1, Bool.false_eq_true, if_false, h2,
          if_true, hds]
        rfl
      · have hn : n = 0 := by omega
        subst hn
        refine ⟨[], ?_⟩
        simp only [execRetryGo, hc, h1, Bool.false_eq_true, if_false, h2]

theorem execRetryGo_fatal {α : Type} (f : Nat → DbOutcome α)
    (jitter : Nat → ℚ) (wakeOk : Bool) (m k : Nat)
    (hf1 : ∀ i, i < k → ∃ c, f i = .transientError c)
    (hf2 : f k = .fatalError) (hk : k < m) :
    ∀ r a w, a + r = m → a ≤ k →
      ∃ ds, execRetryGo f jitter wakeOk m a r w = .fatal (k + 1 - a) ds := by
  intro r
  induction r with
  | zero => intro a w hm ha; omega
  | succ n ih =>
    intro a w hm ha
    by_cases hak : a = k
    · subst hak
      refine ⟨[], ?_⟩
      simp only [execRetryGo, hf2]
      congr 1
      omega
    · have halt : a < k := lt_of_le_of_ne ha hak
      obtain ⟨c, hc⟩ := hf1 a halt
      by_cases h1 : (c && !w && (a == 0) && wakeOk) = true
      · obtain ⟨ds, hds⟩ := ih (a + 1) true (by omega) (by omega)
        refine ⟨ds, ?_⟩
        simp only [execRetryGo, hc, h1, if_true, hds]
        show RetryResult.fatal (k + 1 - (a + 1) + 1) ds = _
        congr 1
        omega
      · have h2 : a + 1 < m := by omega
        obtain ⟨ds, hds⟩ := ih (a + 1) w (by omega) (by omega)
        refine ⟨executeRetryDelay a (jitter a) :: ds, ?_⟩
        simp only [execRetryGo, hc, h1, Bool.false_eq_true, if_false, h2,
          if_true, hds]
        show RetryResult.fatal (k + 1 - (a + 1) + 1) _ = _
        congr 1
        omega

/-- C7: an always-transient operation is invoked exactly `max_retries`
times, the run terminates, and it ends by re-raising the last transient
error (`exhausted`); an operation whose `k`-th invocation raises a
non-transient error (after transient ones) propagates it immediately after
that invocation (`k + 1` calls in total, no further retries). -/
theorem claim_C7_retry_termination {α : Type} (op f : Nat → DbOutcome α)
    (jitter : Nat → ℚ) (wakeOk : Bool) (m k : Nat) (_hm : 1 ≤ m)
    (hop : ∀ n, ∃ c, op n = .transientError c)
    (hf1 : ∀ i, i < k → ∃ c, f i = .transientError c)
    (hf2 : f k = .fatalError) (hk : k < m) :
    (∃ ds, execute_with_retry op jitter wakeOk m = .exhausted m ds) ∧
    (∃ ds, execute_with_retry f jitter wakeOk m = .fatal (k + 1) ds) := by
  constructor
  · exact execRetryGo_exhausted op jitter wakeOk m hop m 0 false (by omega)
  · have h := execRetryGo_fatal f jitter wakeOk m k hf1 hf2 hk m 0 false
      (by omega) (by omega)
    simpa using h

/-- Witness for C7 at `max_retries = 3`: an operation failing transiently
forever is called exactly 3 times and exhausts; an operation that fails
transiently once then fatally is called exactly 2 times. -/
theorem claim_C7_retry_termination_witness :
    (∃ ds, execute_with_retry (fun _ => DbOutcome.transientError (α := Unit) false)
        (fun _ => 0) false 3 = RetryResult.exhausted 3 ds) ∧
    (∃ ds, execute_with_retry
        (fun n => if n < 1 then DbOutcome.transientError false
                  else DbOutcome.fatalError (α := Unit))
        (fun _ => 0) false 3 = RetryResult.fatal 2 ds) :=
  claim_C7_retry_termination
    (fun _ => DbOutcome.transientError false)
    (fun n => if n < 1 then DbOutcome.transientError false else DbOutcome.fatalError)
    (fun _ => 0) false 3 1 (by omega)
    (fun _ => ⟨false, rfl⟩)
    (fun i hi => ⟨false, by simp [hi]⟩)
    (by simp) (by omega)

theorem execRetryGo_delays {α : Type} (op : Nat → DbOutcome α)
    (jitter : Nat → ℚ) (wakeOk : Bool) (m : Nat)
    (hop : ∀ n, op n = .transientError false) :
    ∀ r a w, a + r = m →
      execRetryGo op jitter wakeOk m a r w =
        .exhausted r ((List.range' a (r - 1)).map
          (fun i => executeRetryDelay i (jitter i))) := by
  intro r
  induction r with
  | zero => intro a w _; rfl
  | succ n ih =>
    intro a w hm
    have hc := hop a
    by_cases h2 : a + 1 < m
    · have hn : 1 ≤ n := by omega
      have hrec := ih (a + 1) w (by omega)
      simp only [execRetryGo, hc, Bool.false_and, Bool.and_self, Bool.false_eq_true,
        if_false, h2, if_true, hrec]
      show RetryResult.exhausted (n + 1) _ = _
      congr 1
      have : n + 1 - 1 = (n - 1) + 1 := by omega
      rw [this, List.range'_succ, List.map_cons]
      rfl
    · have hn : n = 0 := by omega
      subst hn
      simp only [execRetryGo, hc, Bool.false_and, Bool.and_self, Bool.false_eq_true,
        if_false, h2]
      rfl

/-- C8 counterexample: the sleep inside `execute_with_retry` before the
third attempt (loop index `attempt = 2`) is `1.0 + 2*0.5 = 2.0` seconds
plus a jitter of at most `0.5`, so even with maximal jitter it stays
strictly below `base_delay * 2^attempt = 4.0` — the exponential-backoff
formula (which appears only in `get_db_with_retry`) cannot describe it for
any nonnegative jitter. -/
theorem claim_C8_counterexample :
    executeRetryDelay 2 0 = 2 ∧ executeRetryDelay 2 (1 / 2) = 5 / 2 ∧
      getDbRetryDelay 1 2 0 = 4 ∧
      executeRetryDelay 2 (1 / 2) < getDbRetryDelay 1 2 0 := by
  refine ⟨?_, ?_, ?_, ?_⟩ <;> norm_num [executeRetryDelay, getDbRetryDelay]

/-- C8 amended: for an operation that always fails transiently (without
triggering the wake probe), `execute_with_retry` sleeps before each retry
following *linear* backoff — the delay after the failure of loop iteration
`i` is `executeRetryDelay i jitter_i = 1.0 + i * 0.5 + jitter_i` with
`jitter_i` drawn from `[0, 0.5]` — producing the delay list
`[delay 0, delay 1, ..., delay (max_retries-2)]`; the exponential formula
`base_delay * 2^attempt + jitter` (`getDbRetryDelay`) is used only by the
session-acquisition path `get_db_with_retry`, not by `execute_with_retry`. -/
theorem claim_C8_linear_backoff {α : Type} (op : Nat → DbOutcome α)
    (jitter : Nat → ℚ) (wakeOk : Bool) (m : Nat)
    (hop : ∀ n, op n = .transientError false) :
    execute_with_retry op jitter wakeOk m =
      .exhausted m ((List.range (m - 1)).map
        (fun i => executeRetryDelay i (jitter i))) := by
  have h := execRetryGo_delays op jitter wakeOk m hop m 0 false (by omega)
  rw [execute_with_retry, h, List.range_eq_range']

/-- Witness for C8 amended: with `max_retries = 3` and zero jitter the
delays are `[1.0, 1.5]` seconds. -/
theorem claim_C8_linear_backoff_witness :
    execute_with_retry (fun _ => DbOutcome.transientError (α := Unit) false)
        (fun _ => 0) false 3 =
      RetryResult.exhausted 3 [1, 3 / 2] := by
  have h := claim_C8_linear_backoff (fun _ => DbOutcome.transientError (α := Unit) false)
    (fun _ => 0) false 3 (fun _ => rfl)
  rw [h]
  norm_num [executeRetryDelay, List.range_succ]

theorem memLookup_cons (p : String × MemEntry) (ps : List (String × MemEntry))
    (k : String) :
    memLookup (p :: ps) k = if p.1 == k then some p.2 else memLookup ps k := by
  cases hp : (p.1 == k) with
  | true => simp [memLookup, List.find?, hp]
  | false => simp [memLookup, List.find?, hp]

theorem memLookup_memInsert (m : List (String × MemEntry)) (k : String)
    (e : MemEntry) : memLookup (memInsert m k e) k = some e := by
  unfold memInsert
  by_cases h : (m.any (fun p => p.1 == k)) = true
  · simp only [h, if_true]
    induction m with
    | nil => simp at h
    | cons p ps ih =>
      by_cases hp : (p.1 == k) = true
      · simp only [List.map_cons, hp, if_true]
        simp [memLookup_cons]
      · simp only [List.any_cons, hp, Bool.false_or] at h
        simp only [List.map_cons, hp, Bool.false_eq_true, if_false]
        rw [memLookup_cons]
        simp only [hp, Bool.false_eq_true, if_false]
        exact ih h
  · simp only [h, Bool.false_eq_true, if_false]
    induction m with
    | nil => simp [memLookup_cons]
    | cons p ps ih =>
      simp only [List.any_cons, Bool.or_eq_true, not_or] at h
      rw [List.cons_append, memLookup_cons]
      simp only [h.1, Bool.false_eq_true, if_false]
      exact ih (by simpa using h.2)

theorem getRedis_none (cfg : CacheConfig) (st : CacheState)
    (r : TierRead String) (h : ¬ redisFresh cfg r) :
    (HybridCacheService.getRedis cfg st r).1 = none := by
  unfold HybridCacheService.getRedis
  by_cases ha : cfg.redis_available = true
  · cases r with
    | hit v => exact absurd ⟨ha, v, rfl⟩ h
    | missing => simp [ha, HybridCacheService.getMiss]
    | failure => simp [ha, HybridCacheService.getMiss]
  · simp [ha, HybridCacheService.getMiss]

theorem getRedis_hit (cfg : CacheConfig) (st : CacheState) (v : String)
    (ha : cfg.redis_available = true) :
    (HybridCacheService.getRedis cfg st (.hit v)).1 = some v := by
  simp [HybridCacheService.getRedis, ha]

theorem getDynamo_not_fresh (cfg : CacheConfig) (st : CacheState)
    (key : String) (now : ℚ) (d : TierRead DynamoItem) (r : TierRead String)
    (h : ¬ dynamoFresh cfg d now) :
    HybridCacheService.getDynamo cfg st key now d r =
      HybridCacheService.getRedis cfg st r := by
  unfold HybridCacheService.getDynamo
  by_cases hd : cfg.hasDynamo = true
  · cases d with
    | hit item =>
      have hexp : ¬ now < item.expires_at := fun hlt => h ⟨hd, item, rfl, hlt⟩
      simp [hd, hexp]
    | missing => simp [hd]
    | failure => simp [hd]
  · simp [hd]

theorem getDynamo_fresh (cfg : CacheConfig) (st : CacheState) (key : String)
    (now : ℚ) (item : DynamoItem) (r : TierRead String)
    (hd : cfg.hasDynamo = true) (hexp : now < item.expires_at) :
    (HybridCacheService.getDynamo cfg st key now (.hit item) r).1 =
      some item.cache_value := by
  unfold HybridCacheService.getDynamo
  simp [hd, hexp]

/-- C5: `get` consults the memory tier, then DynamoDB, then Redis, in that
order, returning the first unexpired hit; when no tier yields a hit —
including when the DynamoDB or Redis read raises (`TierRead.failure`) —
`get` returns `none` (a `Miss`), never an error. -/
theorem claim_C5_get_tier_order (cfg : CacheConfig) (st : CacheState)
    (key : String) (now : ℚ) (d : TierRead DynamoItem) (r : TierRead String) :
    (∀ e, memLookup st.memory key = some e → now < e.expires_at →
      (HybridCacheService.get cfg st key now d r).1 = some e.value) ∧
    (¬ memFresh st key now → ∀ item, cfg.hasDynamo = true → d = .hit item →
      now < item.expires_at →
      (HybridCacheService.get cfg st key now d r).1 = some item.cache_value) ∧
    (¬ memFresh st key now → ¬ dynamoFresh cfg d now → ∀ v,
      cfg.redis_available = true → r = .hit v →
      (HybridCacheService.get cfg st key now d r).1 = some v) ∧
    (¬ memFresh st key now → ¬ dynamoFresh cfg d now → ¬ redisFresh cfg r →
      (HybridCacheService.get cfg st key now d r).1 = none) := by
  refine ⟨?_, ?_, ?_, ?_⟩
  · intro e hml hlt
    simp [HybridCacheService.get, hml, hlt]
  · intro hmem item hd hdr hexp
    subst hdr
    unfold HybridCacheService.get
    cases hml : memLookup st.memory key with
    | some e =>
      have hnlt : ¬ now < e.expires_at := fun hlt => hmem ⟨e, hml, hlt⟩
      simp only [hnlt, Bool.false_eq_true, if_false]
      exact getDynamo_fresh cfg _ key now item r hd hexp
    | none => exact getDynamo_fresh cfg st key now item r hd hexp
  · intro hmem hdyn v ha hr
    subst hr
    unfold HybridCacheService.get
    cases hml : memLookup st.memory key with
    | some e =>
      have hnlt : ¬ now < e.expires_at := fun hlt => hmem ⟨e, hml, hlt⟩
      simp only [hnlt, Bool.false_eq_true, if_false]
      rw [getDynamo_not_fresh cfg _ key now d _ hdyn]
      exact getRedis_hit cfg _ v ha
    | none =>
      rw [getDynamo_not_fresh cfg st key now d _ hdyn]
      exact getRedis_hit cfg st v ha
  · intro hmem hdyn hred
    unfold HybridCacheService.get
    cases hml : memLookup st.memory key with
    | some e =>
      have hnlt : ¬ now < e.expires_at := fun hlt => hmem ⟨e, hml, hlt⟩
      simp only [hnlt, Bool.false_eq_true, if_false]
      rw [getDynamo_not_fresh cfg _ key now d _ hdyn]
      exact getRedis_none cfg _ r hred
    | none =>
      rw [getDynamo_not_fresh cfg st key now d _ hdyn]
      exact getRedis_none cfg st r hred

/-- Witness for C5: on an empty cache with both external tier reads
failing, `get` returns `none` rather than an error. -/
theorem claim_C5_get_tier_order_witness :
    (HybridCacheService.get ⟨1000, 300, true, true⟩ ⟨[], 0, 0, 0, 0, 0⟩
      "k" 0 TierRead.failure TierRead.failure).1 = none := by
  refine (claim_C5_get_tier_order ⟨1000, 300, true, true⟩ ⟨[], 0, 0, 0, 0, 0⟩
    "k" 0 TierRead.failure TierRead.failure).2.2.2 ?_ ?_ ?_
  · rintro ⟨e, he, -⟩
    simp [memLookup] at he
  · rintro ⟨-, item, hitem, -⟩
    exact absurd hitem (by simp)
  · rintro ⟨-, v, hv⟩
    exact absurd hv (by simp)

/-- C6 counterexample: `set` with a requested TTL of 600 seconds on a fresh
cache stores *nothing* in the memory tier (the code guards the memory write
with `expire_seconds <= self.memory_ttl` instead of clamping the TTL), so
with no external tiers a `get` 100 seconds later — well inside the 300s
memory ceiling — misses instead of returning the value. -/
theorem claim_C6_counterexample :
    (HybridCacheService.set ⟨1000, 300, false, false⟩ ⟨[], 0, 0, 0, 0, 0⟩
      "k" "v" 600 0).2.memory = [] ∧
    (HybridCacheService.get ⟨1000, 300, false, false⟩
      (HybridCacheService.set ⟨1000, 300, false, false⟩ ⟨[], 0, 0, 0, 0, 0⟩
        "k" "v" 600 0).2
      "k" 100 TierRead.missing TierRead.missing).1 = none := by
  constructor
  · rfl
  · rfl

/-- C6 amended: `set(key, value, ttl_seconds)` writes the entry to the
memory tier exactly when the requested TTL fits the memory ceiling
(`ttl_seconds ≤ 300`); every entry so stored expires at `now + ttl`, hence
carries a TTL of at most the ceiling, and a `get(key)` within that TTL is
answered by the memory tier with the value; when the requested TTL exceeds
the ceiling, the memory tier is left untouched.  `set` reports success in
both cases. -/
theorem claim_C6_memory_tier (cfg : CacheConfig) (st : CacheState)
    (key value : String) (ttl now t : ℚ) (d : TierRead DynamoItem)
    (r : TierRead String) :
    (ttl ≤ cfg.memory_ttl →
      memLookup (HybridCacheService.set cfg st key value ttl now).2.memory key
        = some ⟨value, now + ttl, now⟩) ∧
    (ttl ≤ cfg.memory_ttl → t < now + ttl →
      (HybridCacheService.get cfg
          (HybridCacheService.set cfg st key value ttl now).2 key t d r).1
        = some value) ∧
    (cfg.memory_ttl < ttl →
      (HybridCacheService.set cfg st key value ttl now).2.memory = st.memory) ∧
    (HybridCacheService.set cfg st key value ttl now).1 = true := by
  refine ⟨?_, ?_, ?_, rfl⟩
  · intro h1
    simp only [HybridCacheService.set, h1, if_true]
    exact memLookup_memInsert _ key _
  · intro h1 h2
    have hml : memLookup (HybridCacheService.set cfg st key value ttl now).2.memory key
        = some ⟨value, now + ttl, now⟩ := by
      simp only [HybridCacheService.set, h1, if_true]
      exact memLookup_memInsert _ key _
    simp [HybridCacheService.get, hml, h2]
  · intro hover
    have h1 : ¬ ttl ≤ cfg.memory_ttl := not_le.mpr hover
    simp [HybridCacheService.set, h1]

/-- Witness for C6 amended: a 200-second `set` at time 0 is stored in the
memory tier and a `get` at time 100 returns the value. -/
theorem claim_C6_memory_tier_witness :
    memLookup (HybridCacheService.set ⟨1000, 300, false, false⟩
        ⟨[], 0, 0, 0, 0, 0⟩ "k" "v" 200 0).2.memory "k"
      = some ⟨"v", 200, 0⟩ ∧
    (HybridCacheService.get ⟨1000, 300, false, false⟩
        (HybridCacheService.set ⟨1000, 300, false, false⟩
          ⟨[], 0, 0, 0, 0, 0⟩ "k" "v" 200 0).2
        "k" 100 TierRead.missing TierRead.missing).1 = some "v" := by
  have h := claim_C6_memory_tier ⟨1000, 300, false, false⟩ ⟨[], 0, 0, 0, 0, 0⟩
    "k" "v" 200 0 100 TierRead.missing TierRead.missing
  refine ⟨?_, h.2.1 (by norm_num) (by norm_num)⟩
  have h0 := h.1 (by norm_num)
  simpa using h0

theorem getMiss_step (st : CacheState) :
    (HybridCacheService.getMiss st).2.hits = st.hits ∧
    (HybridCacheService.getMiss st).2.misses = st.misses + 1 ∧
    tierSum (HybridCacheService.getMiss st).2 = tierSum st := by
  simp [HybridCacheService.getMiss, tierSum]

theorem getRedis_step (cfg : CacheConfig) (st : CacheState)
    (r : TierRead String) :
    ((HybridCacheService.getRedis cfg st r).2.hits = st.hits + 1 ∧
      (HybridCacheService.getRedis cfg st r).2.misses = st.misses ∧
      tierSum (HybridCacheService.getRedis cfg st r).2 = tierSum st + 1) ∨
    ((HybridCacheService.getRedis cfg st r).2.hits = st.hits ∧
      (HybridCacheService.getRedis cfg st r).2.misses = st.misses + 1 ∧
      tierSum (HybridCacheService.getRedis cfg st r).2 = tierSum st) := by
  unfold HybridCacheService.getRedis
  by_cases ha : cfg.redis_available = true
  · cases r with
    | hit v => left; simp [ha, tierSum]; omega
    | missing => right; simp [ha]; exact ⟨(getMiss_step st).1, (getMiss_step st).2.1, (getMiss_step st).2.2⟩
    | failure => right; simp [ha]; exact ⟨(getMiss_step st).1, (getMiss_step st).2.1, (getMiss_step st).2.2⟩
  · right; simp [ha]; exact ⟨(getMiss_step st).1, (getMiss_step st).2.1, (getMiss_step st).2.2⟩

theorem getDynamo_step (cfg : CacheConfig) (st : CacheState) (key : String)
    (now : ℚ) (d : TierRead DynamoItem) (r : TierRead String) :
    ((HybridCacheService.getDynamo cfg st key now d r).2.hits = st.hits + 1 ∧
      (HybridCacheService.getDynamo cfg st key now d r).2.misses = st.misses ∧
      tierSum (HybridCacheService.getDynamo cfg st key now d r).2 = tierSum st + 1) ∨
    ((HybridCacheService.getDynamo cfg st key now d r).2.hits = st.hits ∧
      (HybridCacheService.getDynamo cfg st key now d r).2.misses = st.misses + 1 ∧
      tierSum (HybridCacheService.getDynamo cfg st key now d r).2 = tierSum st) := by
  unfold HybridCacheService.getDynamo
  by_cases hd : cfg.hasDynamo = true
  · cases d with
    | hit item =>
      by_cases hexp : now < item.expires_at
      · left
        by_cases hre : item.expires_at - now ≤ cfg.memory_ttl <;>
          simp [hd, hexp, hre, tierSum] <;> omega
      · simp only [hd, if_true, hexp, Bool.false_eq_true, if_false]
        exact getRedis_step cfg st r
    | missing => simp only [hd, if_true]; exact getRedis_step cfg st r
    | failure => simp only [hd, if_true]; exact getRedis_step cfg st r
  · simp only [hd, Bool.false_eq_true, if_false]
    exact getRedis_step cfg st r

theorem get_step (cfg : CacheConfig) (st : CacheState) (key : String)
    (now : ℚ) (d : TierRead DynamoItem) (r : TierRead String) :
    ((HybridCacheService.get cfg st key now d r).2.hits = st.hits + 1 ∧
      (HybridCacheService.get cfg st key now d r).2.misses = st.misses ∧
      tierSum (HybridCacheService.get cfg st key now d r).2 = tierSum st + 1) ∨
    ((HybridCacheService.get cfg st key now d r).2.hits = st.hits ∧
      (HybridCacheService.get cfg st key now d r).2.misses = st.misses + 1 ∧
      tierSum (HybridCacheService.get cfg st key now d r).2 = tierSum st) := by
  unfold HybridCacheService.get
  cases hml : memLookup st.memory key with
  | some e =>
    by_cases hexp : now < e.expires_at
    · left; simp [hexp, tierSum]; omega
    · simp only [hexp, Bool.false_eq_true, if_false]
      exact getDynamo_step cfg _ key now d r
  | none => exact getDynamo_step cfg st key now d r

theorem runGets_counters (cfg : CacheConfig) (ops : List GetArgs) :
    ∀ st : CacheState,
      (runGets cfg st ops).hits + (runGets cfg st ops).misses
          = st.hits + st.misses + ops.length ∧
      (runGets cfg st ops).hits + tierSum st
          = st.hits + tierSum (runGets cfg st ops) := by
  induction ops with
  | nil => intro st; simp [runGets]
  | cons a rest ih =>
    intro st
    have hstep := get_step cfg st a.key a.now a.dynamoResp a.redisResp
    have hrec := ih (HybridCacheService.get cfg st a.key a.now a.dynamoResp a.redisResp).2
    simp only [runGets, List.length_cons]
    rcases hstep with ⟨h1, h2, h3⟩ | ⟨h1, h2, h3⟩ <;> omega

/-- C10: every `get` increments exactly one of the hit and miss counters;
consequently, after any sequence of `get` operations starting from zeroed
statistics, `get_stats` reports `hits` equal to
`memory_hits + dynamo_hits + redis_hits` (no hit is unattributed to a
tier) and `hits + misses` equal to the number of `get` calls. -/
theorem claim_C10_stats_attributed (cfg : CacheConfig)
    (mem : List (String × MemEntry)) (ops : List GetArgs) :
    (∀ (st : CacheState) (key : String) (now : ℚ) (d : TierRead DynamoItem)
        (r : TierRead String),
      ((HybridCacheService.get cfg st key now d r).2.hits = st.hits + 1 ∧
        (HybridCacheService.get cfg st key now d r).2.misses = st.misses) ∨
      ((HybridCacheService.get cfg st key now d r).2.hits = st.hits ∧
        (HybridCacheService.get cfg st key now d r).2.misses = st.misses + 1)) ∧
    (HybridCacheService.get_stats (runGets cfg ⟨mem, 0, 0, 0, 0, 0⟩ ops)).hits
        = (HybridCacheService.get_stats (runGets cfg ⟨mem, 0, 0, 0, 0, 0⟩ ops)).memory_hits
          + (HybridCacheService.get_stats (runGets cfg ⟨mem, 0, 0, 0, 0, 0⟩ ops)).dynamo_hits
          + (HybridCacheService.get_stats (runGets cfg ⟨mem, 0, 0, 0, 0, 0⟩ ops)).redis_hits ∧
    (HybridCacheService.get_stats (runGets cfg ⟨mem, 0, 0, 0, 0, 0⟩ ops)).total_requests
        = ops.length := by
  refine ⟨?_, ?_, ?_⟩
  · intro st key now d r
    rcases get_step cfg st key now d r with ⟨h1, h2, -⟩ | ⟨h1, h2, -⟩
    · exact Or.inl ⟨h1, h2⟩
    · exact Or.inr ⟨h1, h2⟩
  · have h := (runGets_counters cfg ops ⟨mem, 0, 0, 0, 0, 0⟩).2
    simp only [HybridCacheService.get_stats, tierSum] at *
    omega
  · have h := (runGets_counters cfg ops ⟨mem, 0, 0, 0, 0, 0⟩).1
    simp only [HybridCacheService.get_stats, tierSum] at *
    omega

/-- C3 (code bug): submitting a score log whose `game_id` does not exist
stores zero entries, but the caller receives the generic
`500 "An error occurred while creating score log"` — the handler's own
`HTTPException(404, "Game or content not found")` is raised inside the
`try:` block and swallowed by `except Exception`.  (The sibling
leaderboard handler has an `except HTTPException: raise` arm for exactly
this; this handler does not.) -/
theorem claim_C3_missing_game_yields_500 :
    create_score_log_endpoint ⟨[], [], [], []⟩ 1
        ⟨5, 6, 10, none, 1, none, none, none, none⟩ 100 200
      = (.httpError 500 "An error occurred while creating score log",
          ⟨[], [], [], []⟩) ∧
    create_score_log_try ⟨[], [], [], []⟩ 1
        ⟨5, 6, 10, none, 1, none, none, none, none⟩ 100 200
      = (.raisedHttp 404 "Game or content not found", ⟨[], [], [], []⟩) :=
  ⟨rfl, rfl⟩

/-- C9: after any sequence of core operations, the original log rows are
still present, in order, with identical field values — the core only ever
appends (`tail` is the list of newly appended rows), never updates or
deletes a `ScoreLogEntry`. -/
theorem claim_C9_append_only (st : Store) (ops : List CoreOp) :
    (∃ tail, (ops.foldl applyCoreOp st).score_logs = st.score_logs ++ tail) ∧
    ∀ e ∈ st.score_logs, e ∈ (ops.foldl applyCoreOp st).score_logs := by
  have key : ∀ (l : List CoreOp) (s : Store),
      ∃ tail, (l.foldl applyCoreOp s).score_logs = s.score_logs ++ tail := by
    intro l
    induction l with
    | nil => intro s; exact ⟨[], by simp⟩
    | cons op rest ih =>
      intro s
      obtain ⟨tail, htail⟩ := ih (applyCoreOp s op)
      have hstep : ∃ mid, (applyCoreOp s op).score_logs = s.score_logs ++ mid := by
        cases op with
        | append uid d rid t =>
          unfold applyCoreOp GameService.create_score_log
          by_cases h1 : (s.games.find? (fun g => g.1 == d.game_id)).isNone
          · exact ⟨[], by simp [h1]⟩
          · by_cases h2 : (s.contents.find? (fun c => c.1 == d.content_id)).isNone
            · exact ⟨[], by simp [h1, h2]⟩
            · by_cases h3 : (s.content_games.find?
                  (fun cg => cg.1 == d.game_id && cg.2 == d.content_id)).isNone
              · exact ⟨[], by simp [h1, h2, h3]⟩
              · exact ⟨[ScoreLogEntry.mk rid uid d.game_id d.content_id
                    d.score d.accuracy d.attempts d.start_time d.end_time
                    d.cycles d.level_config t], by simp [h1, h2, h3]⟩
        | filteredLogs _ _ _ _ _ => exact ⟨[], by simp [applyCoreOp]⟩
        | bestScorePerUser _ _ _ => exact ⟨[], by simp [applyCoreOp]⟩
        | latestDistinctGamesPlayed _ _ _ => exact ⟨[], by simp [applyCoreOp]⟩
      obtain ⟨mid, hmid⟩ := hstep
      exact ⟨mid ++ tail, by simp [List.foldl_cons, htail, hmid]⟩
  obtain ⟨tail, htail⟩ := key ops st
  exact ⟨⟨tail, htail⟩, fun e he => htail ▸ List.mem_append_left tail he⟩

theorem run_partition_creations_mem (ym : Nat × Nat) (n : Nat) :
    ∀ parts, ym ∈ parts →
      run_partition_creations (List.replicate n ym) parts
        = (List.replicate n true, parts) := by
  induction n with
  | zero => intro parts _; rfl
  | succ k ih =>
    intro parts hmem
    have h : auto_create_game_score_logs_partition ym parts = .ok parts := by
      simp [auto_create_game_score_logs_partition,
        create_monthly_game_score_logs_partition, hmem]
    simp [List.replicate_succ, run_partition_creations, h, ih parts hmem]

/-- C1: for `n ≥ 2` writers whose score-log rows fall in month `ym`, any
interleaving of their partition-ensuring trigger invocations reports
success for every one of them (so no insert fails due to the creation
race), and exactly one physical partition for `ym` exists afterwards. -/
theorem claim_C1_partition_race (ym : Nat × Nat) (n : Nat)
    (parts : List (Nat × Nat)) (h0 : ym ∉ parts) (hn : 2 ≤ n) :
    (run_partition_creations (List.replicate n ym) parts).1
        = List.replicate n true ∧
    (run_partition_creations (List.replicate n ym) parts).2.count ym = 1 := by
  obtain ⟨k, rfl⟩ : ∃ k, n = k + 1 := ⟨n - 1, by omega⟩
  have h1 : auto_create_game_score_logs_partition ym parts = .ok (ym :: parts) := by
    simp [auto_create_game_score_logs_partition,
      create_monthly_game_score_logs_partition, h0]
  have h2 := run_partition_creations_mem ym k (ym :: parts) (List.mem_cons_self ym parts)
  constructor
  · simp [List.replicate_succ, run_partition_creations, h1, h2]
  · simp [List.replicate_succ, run_partition_creations, h1, h2,
      List.count_cons_self, List.count_eq_zero_of_not_mem h0]

/-- Witness for C1: three writers racing on the November 2025 partition,
starting from the two partitions seeded by the migration (2025-09 and
2025-10): all three invocations succeed and exactly one 2025-11 partition
exists. -/
theorem claim_C1_partition_race_witness :
    (run_partition_creations
        (List.replicate 3 (2025, 11)) [(2025, 9), (2025, 10)]).1
      = [true, true, true] ∧
    (run_partition_creations
        (List.replicate 3 (2025, 11)) [(2025, 9), (2025, 10)]).2.count (2025, 11)
      = 1 := by
  have h := claim_C1_partition_race (2025, 11) 3 [(2025, 9), (2025, 10)]
    (by decide) (by omega)
  exact ⟨by rw [h.1]; rfl, h.2⟩

/-! ## Supporting lemmas for the aggregation queries -/

theorem sortBy_head_le {α : Type} (le : α → α → Bool)
    (htot : ∀ a b, le a b = true ∨ le b a = true)
    (htrans : ∀ a b c, le a b = true → le b c = true → le a c = true)
    (l : List α) (x : α) (hx : (sortBy le l).head? = some x) :
    x ∈ l ∧ ∀ y ∈ l, le x y = true := by
  have hperm := sortBy_perm le l
  have hpw := sortBy_pairwise le htot htrans l
  cases hs : sortBy le l with
  | nil => rw [hs] at hx; simp at hx
  | cons a rest =>
    rw [hs] at hx hperm hpw
    have hax : a = x := by simpa using hx
    subst hax
    refine ⟨hperm.mem_iff.mp (List.mem_cons_self a rest), ?_⟩
    intro y hy
    have hy' : y ∈ a :: rest := hperm.mem_iff.mpr hy
    rcases List.mem_cons.mp hy' with h | h
    · subst h
      rcases htot y y with h' | h' <;> exact h'
    · exact (List.pairwise_cons.mp hpw).1 y h

theorem sortBy_ne_nil {α : Type} (le : α → α → Bool) (l : List α)
    (h : l ≠ []) : sortBy le l ≠ [] := by
  intro hnil
  have := (sortBy_perm le l).length_eq
  rw [hnil] at this
  exact h (List.length_eq_zero.mp this.symm)

theorem maxScoreQ_spec : ∀ (l : List ℚ) (m : ℚ), maxScoreQ l = some m →
    m ∈ l ∧ ∀ x ∈ l, x ≤ m := by
  intro l
  induction l with
  | nil => intro m h; simp [maxScoreQ] at h
  | cons x xs ih =>
    intro m h
    cases hxs : maxScoreQ xs with
    | none =>
      have hxm : x = m := by
        simp only [maxScoreQ, hxs] at h
        simpa using h
      subst hxm
      have hempty : xs = [] := by
        cases xs with
        | nil => rfl
        | cons y ys =>
          simp only [maxScoreQ] at hxs
          cases hys : maxScoreQ ys <;> simp [hys] at hxs
      subst hempty
      exact ⟨by simp, by simp⟩
    | some mx =>
      have hmax : max x mx = m := by
        simp only [maxScoreQ, hxs] at h
        simpa using h
      obtain ⟨hmem, hle⟩ := ih mx hxs
      subst hmax
      constructor
      · rcases le_total x mx with hc | hc
        · rw [max_eq_right hc]
          exact List.mem_cons_of_mem x hmem
        · rw [max_eq_left hc]
          exact List.mem_cons_self x xs
      · intro y hy
        rcases List.mem_cons.mp hy with h' | h'
        · rw [h']; exact le_max_left x mx
        · exact le_trans (hle y h') (le_max_right x mx)

theorem maxScoreQ_ne_none (x : ℚ) (xs : List ℚ) :
    ∃ m, maxScoreQ (x :: xs) = some m := by
  simp only [maxScoreQ]
  cases maxScoreQ xs <;> exact ⟨_, rfl⟩

theorem best_score_isSome (l : List ScoreLogEntry) (u : Nat)
    (h : u ∈ distinct_user_ids l) : ∃ b, best_score l u = some b := by
  unfold distinct_user_ids at h
  obtain ⟨e, he, heu⟩ := List.mem_map.mp (List.mem_dedup.mp h)
  have hef : e ∈ l.filter (fun e => e.user_id == u) :=
    List.mem_filter.mpr ⟨he, by simp [heu]⟩
  unfold best_score
  cases hl : (l.filter (fun e => e.user_id == u)).map (fun e => e.score) with
  | nil =>
    exact absurd (List.mem_map_of_mem (fun e => e.score) hef) (by simp [hl])
  | cons x xs => exact hl ▸ maxScoreQ_ne_none x xs

theorem best_score_spec (l : List ScoreLogEntry) (u : Nat) (b : ℚ)
    (h : best_score l u = some b) :
    (∃ e ∈ l, e.user_id = u ∧ e.score = b) ∧
    (∀ e ∈ l, e.user_id = u → e.score ≤ b) ∧ u ∈ distinct_user_ids l := by
  obtain ⟨hmem, hle⟩ := maxScoreQ_spec _ b h
  obtain ⟨e, hef, hes⟩ := List.mem_map.mp hmem
  obtain ⟨hel, heu⟩ := List.mem_filter.mp hef
  have heu' : e.user_id = u := by simpa using heu
  refine ⟨⟨e, hel, heu', hes⟩, ?_, ?_⟩
  · intro e' he' hu'
    exact hle e'.score (List.mem_map_of_mem _
      (List.mem_filter.mpr ⟨he', by simp [hu']⟩))
  · exact List.mem_dedup.mpr (List.mem_map.mpr ⟨e, hel, heu'⟩)

theorem mem_best_pairs_iff (glogs : List ScoreLogEntry) (u : Nat) (b : ℚ) :
    (u, b) ∈ (distinct_user_ids glogs).filterMap
        (fun v => (best_score glogs v).map (fun c => (v, c))) ↔
      best_score glogs u = some b := by
  rw [List.mem_filterMap]
  constructor
  · rintro ⟨v, hv, hfv⟩
    cases hfv' : best_score glogs v with
    | none => rw [hfv'] at hfv; simp at hfv
    | some c =>
      rw [hfv'] at hfv
      have : v = u ∧ c = b := by simpa [Prod.ext_iff] using hfv
      obtain ⟨rfl, rfl⟩ := this
      exact hfv'
  · intro hfu
    exact ⟨u, (best_score_spec glogs u b hfu).2.2, by simp [hfu]⟩

theorem best_pairs_map_fst (glogs : List ScoreLogEntry) :
    ((distinct_user_ids glogs).filterMap
        (fun v => (best_score glogs v).map (fun c => (v, c)))).map Prod.fst
      = distinct_user_ids glogs := by
  have h : ∀ us : List Nat, (∀ u ∈ us, ∃ b, best_score glogs u = some b) →
      (us.filterMap (fun v => (best_score glogs v).map (fun c => (v, c)))).map Prod.fst = us := by
    intro us
    induction us with
    | nil => intro _; rfl
    | cons u rest ih =>
      intro hall
      obtain ⟨b, hb⟩ := hall u (List.mem_cons_self u rest)
      have hstep : ((u :: rest).filterMap
          (fun v => (best_score glogs v).map (fun c => (v, c))))
            = (u, b) :: rest.filterMap
                (fun v => (best_score glogs v).map (fun c => (v, c))) := by
        simp [List.filterMap_cons, hb]
      rw [hstep, List.map_cons, ih (fun v hv => hall v (List.mem_cons_of_mem u hv))]
  exact h (distinct_user_ids glogs) (fun u hu => best_score_isSome glogs u hu)

theorem paginate_all {α : Type} (l : List α) (pp : Nat) (h : l.length ≤ pp) :
    paginate l 1 pp = l := by
  simp only [paginate, Nat.sub_self, Nat.zero_mul, List.drop_zero]
  exact List.take_of_length_le h

theorem lbLe_total (a b : ScoreLogEntry) : lbLe a b = true ∨ lbLe b a = true := by
  simp only [lbLe, Bool.or_eq_true, Bool.and_eq_true, decide_eq_true_eq, beq_iff_eq]
  rcases lt_trichotomy a.score b.score with h | h | h
  · exact Or.inr (Or.inl h)
  · rcases le_total b.created_at a.created_at with hc | hc
    · exact Or.inl (Or.inr ⟨h, hc⟩)
    · exact Or.inr (Or.inr ⟨h.symm, hc⟩)
  · exact Or.inl (Or.inl h)

theorem lbLe_trans (a b c : ScoreLogEntry) (h1 : lbLe a b = true)
    (h2 : lbLe b c = true) : lbLe a c = true := by
  simp only [lbLe, Bool.or_eq_true, Bool.and_eq_true, decide_eq_true_eq,
    beq_iff_eq] at h1 h2 ⊢
  rcases h1 with h1 | ⟨h1e, h1c⟩ <;> rcases h2 with h2 | ⟨h2e, h2c⟩
  · exact Or.inl (lt_trans h2 h1)
  · exact Or.inl (by rw [← h2e]; exact h1)
  · exact Or.inl (by rw [h1e]; exact h2)
  · exact Or.inr ⟨h1e.trans h2e, le_trans h2c h1c⟩

theorem filter_user_length (J : List ScoreLogEntry) (u : Nat) :
    (((sortBy lbLe J).map toLeaderboardRow).filter
        (fun r => r.user_id == u)).length
      = (J.filter (fun e => e.user_id == u)).length := by
  rw [List.filter_map, List.length_map]
  have h1 : (sortBy lbLe J).filter
        ((fun r : LeaderboardRow => r.user_id == u) ∘ toLeaderboardRow)
      = (sortBy lbLe J).filter (fun e => e.user_id == u) :=
    List.filter_congr (fun e _ => rfl)
  rw [h1]
  exact ((sortBy_perm lbLe J).filter _).length_eq

theorem user_best_scores_eq (st : Store) (g page pp : Nat) :
    user_best_scores st g page pp =
      paginate (sortBy (fun a b => decide (b.2 ≤ a.2))
        ((distinct_user_ids (gameLogs st g)).filterMap
          (fun u => (best_score (gameLogs st g) u).map (fun b => (u, b)))))
        page pp := rfl

theorem leaderboard_eq (st : Store) (g page pp : Nat) :
    get_game_leaderboard_from_logs st g page pp =
      ((sortBy lbLe ((gameLogs st g).filter
          (fun e => (user_best_scores st g page pp).any
            (fun p => p.1 == e.user_id && p.2 == e.score)))).map toLeaderboardRow,
        (distinct_user_ids (gameLogs st g)).length) := rfl

/-- C2 counterexample: for game 1, user 7 has two entries that both attain
the user's maximum score 25 (at `created_at` 10 and 20).  The join
`gsl.user_id = ubs.user_id AND gsl.score = ubs.best_score` matches both
rows and nothing deduplicates them, so the leaderboard returns *two* rows
for the single distinct user — the claimed "exactly one entry row per
distinct user, ties broken by most recent created_at" fails. -/
theorem claim_C2_counterexample :
    (get_game_leaderboard_from_logs
        ⟨[(1, "g")], [(2, "c")], [(1, 2)],
          [⟨100, 7, 1, 2, 25, none, 1, none, none, none, none, 10⟩,
           ⟨101, 7, 1, 2, 25, none, 1, none, none, none, none, 20⟩]⟩
        1 1 20).1.length = 2 ∧
    distinct_user_ids (gameLogs
        ⟨[(1, "g")], [(2, "c")], [(1, 2)],
          [⟨100, 7, 1, 2, 25, none, 1, none, none, none, none, 10⟩,
           ⟨101, 7, 1, 2, 25, none, 1, none, none, none, none, 20⟩]⟩ 1) = [7] ∧
    ((get_game_leaderboard_from_logs
        ⟨[(1, "g")], [(2, "c")], [(1, 2)],
          [⟨100, 7, 1, 2, 25, none, 1, none, none, none, none, 10⟩,
           ⟨101, 7, 1, 2, 25, none, 1, none, none, none, none, 20⟩]⟩
        1 1 20).1.map (fun r => r.user_id)) = [7, 7] := by
  refine ⟨?_, ?_, ?_⟩ <;> decide

/-- C2 amended: `bestScorePerUser(game_id, page=1, per_page)` (with the
page covering all users) returns, for each distinct `user_id` with entries
for the game, *every* entry row attaining that user's maximum score — one
row when the maximum is attained once, several when it is attained several
times (no `created_at` tie-break exists) — ordered descending by score
then by recency; `total` is the count of distinct users. -/
theorem claim_C2_leaderboard (st : Store) (g per_page : Nat)
    (hpp : (distinct_user_ids (gameLogs st g)).length ≤ per_page) :
    (get_game_leaderboard_from_logs st g 1 per_page).2
        = (distinct_user_ids (gameLogs st g)).length ∧
    (∀ r ∈ (get_game_leaderboard_from_logs st g 1 per_page).1,
      ∃ e ∈ gameLogs st g, r = toLeaderboardRow e ∧
        best_score (gameLogs st g) e.user_id = some e.score) ∧
    (get_game_leaderboard_from_logs st g 1 per_page).1.Pairwise
      (fun a b => b.score < a.score ∨
        (a.score = b.score ∧ b.created_at ≤ a.created_at)) ∧
    (∀ u b, best_score (gameLogs st g) u = some b →
      ((get_game_leaderboard_from_logs st g 1 per_page).1.filter
          (fun r => r.user_id == u)).length
        = ((gameLogs st g).filter
            (fun e => e.user_id == u && e.score == b)).length) := by
  have hubs_eq : user_best_scores st g 1 per_page
      = sortBy (fun a b => decide (b.2 ≤ a.2))
          ((distinct_user_ids (gameLogs st g)).filterMap
            (fun u => (best_score (gameLogs st g) u).map (fun b => (u, b)))) := by
    rw [user_best_scores_eq]
    apply paginate_all
    rw [(sortBy_perm _ _).length_eq]
    calc ((distinct_user_ids (gameLogs st g)).filterMap
            (fun u => (best_score (gameLogs st g) u).map (fun b => (u, b)))).length
        = (((distinct_user_ids (gameLogs st g)).filterMap
            (fun u => (best_score (gameLogs st g) u).map (fun b => (u, b)))).map
              Prod.fst).length := (List.length_map _ _).symm
      _ = (distinct_user_ids (gameLogs st g)).length := by
            rw [best_pairs_map_fst]
      _ ≤ per_page := hpp
  have hmem_ubs : ∀ p : Nat × ℚ, p ∈ user_best_scores st g 1 per_page ↔
      best_score (gameLogs st g) p.1 = some p.2 := by
    intro p
    rw [hubs_eq, (sortBy_perm _ _).mem_iff]
    obtain ⟨u, b⟩ := p
    exact mem_best_pairs_iff (gameLogs st g) u b
  have hjoin : ∀ e : ScoreLogEntry,
      ((user_best_scores st g 1 per_page).any
          (fun p => p.1 == e.user_id && p.2 == e.score)) = true ↔
        best_score (gameLogs st g) e.user_id = some e.score := by
    intro e
    rw [List.any_eq_true]
    constructor
    · rintro ⟨p, hp, hcond⟩
      have hc : p.1 = e.user_id ∧ p.2 = e.score := by
        simpa [Bool.and_eq_true, beq_iff_eq] using hcond
      have := (hmem_ubs p).mp hp
      rw [hc.1, hc.2] at this
      exact this
    · intro hb
      refine ⟨(e.user_id, e.score), (hmem_ubs (e.user_id, e.score)).mpr hb, ?_⟩
      simp
  rw [leaderboard_eq]
  refine ⟨rfl, ?_, ?_, ?_⟩
  · intro r hr
    obtain ⟨e, he, hre⟩ := List.mem_map.mp hr
    have he' : e ∈ (gameLogs st g).filter
        (fun e => (user_best_scores st g 1 per_page).any
          (fun p => p.1 == e.user_id && p.2 == e.score)) :=
      (sortBy_perm _ _).mem_iff.mp he
    obtain ⟨heg, hcond⟩ := List.mem_filter.mp he'
    exact ⟨e, heg, hre.symm, (hjoin e).mp hcond⟩
  · have hpw := sortBy_pairwise lbLe lbLe_total lbLe_trans
      ((gameLogs st g).filter
        (fun e => (user_best_scores st g 1 per_page).any
          (fun p => p.1 == e.user_id && p.2 == e.score)))
    rw [List.pairwise_map]
    refine hpw.imp ?_
    intro a b hab
    simpa [lbLe, Bool.or_eq_true, Bool.and_eq_true, decide_eq_true_eq,
      beq_iff_eq, toLeaderboardRow] using hab
  · intro u b hb
    rw [filter_user_length, List.filter_filter]
    congr 1
    apply List.filter_congr
    intro e he
    by_cases hu : (e.user_id == u) = true
    · simp only [hu, Bool.true_and]
      apply Bool.eq_iff_iff.mpr
      rw [hjoin e, beq_iff_eq.mp hu, hb]
      constructor
      · intro h
        exact beq_iff_eq.mpr (Option.some_inj.mp h).symm
      · intro h
        exact congrArg some (beq_iff_eq.mp h).symm
    · have hu' : (e.user_id == u) = false := by
        simpa [Bool.not_eq_true] using hu
      rw [hu']
      simp

theorem filterMap_map_fixed {α β : Type} (l : List α) (f : α → Option β)
    (pr : β → α) (h : ∀ a ∈ l, ∃ b, f a = some b ∧ pr b = a) :
    (l.filterMap f).map pr = l := by
  induction l with
  | nil => rfl
  | cons a rest ih =>
    obtain ⟨b, hb, hpr⟩ := h a (List.mem_cons_self a rest)
    have hstep : (a :: rest).filterMap f = b :: rest.filterMap f := by
      simp [List.filterMap_cons, hb]
    rw [hstep, List.map_cons, hpr,
      ih (fun x hx => h x (List.mem_cons_of_mem a hx))]

theorem latest_games_eq (st : Store) (u page pp : Nat) :
    get_latest_games_played_from_logs st u page pp =
      (paginate (sortBy
          (fun a b => decide (b.last_played_time ≤ a.last_played_time))
          ((distinct_game_ids (userLogs st u)).filterMap (latestRowOf st u)))
          page pp,
        (distinct_game_ids (userLogs st u)).length) := rfl

/-- C4: with the referential integrity the schema enforces
(`game_id REFERENCES games(id)`, `content_id REFERENCES content(id)`, both
`ON DELETE CASCADE`, expressed as `hwf`) and the page covering all games,
`latestDistinctGamesPlayed(user_id, page=1, per_page)` returns exactly one
summary per distinct `game_id` the user has ever played (the returned
`game_id`s are exactly the distinct played games, without repetition),
each summary carrying the `content_id`, `score` and `created_at` of an
entry with maximal `created_at` for that `(user, game)` pair, ordered
descending by `last_played_time`; `total` is the distinct-game count. -/
theorem claim_C4_latest_games (st : Store) (u per_page : Nat)
    (hwf : ∀ e ∈ st.score_logs, (lookupTitle st.games e.game_id).isSome
      ∧ (lookupTitle st.contents e.content_id).isSome)
    (hpp : (distinct_game_ids (userLogs st u)).length ≤ per_page) :
    (get_latest_games_played_from_logs st u 1 per_page).2
        = (distinct_game_ids (userLogs st u)).length ∧
    ((get_latest_games_played_from_logs st u 1 per_page).1.map
        (fun r => r.game_id)).Perm (distinct_game_ids (userLogs st u)) ∧
    ((get_latest_games_played_from_logs st u 1 per_page).1.map
        (fun r => r.game_id)).Nodup ∧
    (∀ r ∈ (get_latest_games_played_from_logs st u 1 per_page).1,
      ∃ e ∈ userLogs st u, e.game_id = r.game_id ∧ r.content_id = e.content_id
        ∧ r.score = e.score ∧ r.last_played_time = e.created_at
        ∧ ∀ e' ∈ userLogs st u, e'.game_id = r.game_id →
            e'.created_at ≤ e.created_at) ∧
    (get_latest_games_played_from_logs st u 1 per_page).1.Pairwise
      (fun a b => b.last_played_time ≤ a.last_played_time) := by
  have htotT : ∀ a b : ScoreLogEntry,
      (decide (b.created_at ≤ a.created_at) : Bool) = true ∨
      (decide (a.created_at ≤ b.created_at) : Bool) = true := by
    intro a b
    rcases le_total b.created_at a.created_at with h | h
    · exact Or.inl (decide_eq_true h)
    · exact Or.inr (decide_eq_true h)
  have htransT : ∀ a b c : ScoreLogEntry,
      (decide (b.created_at ≤ a.created_at) : Bool) = true →
      (decide (c.created_at ≤ b.created_at) : Bool) = true →
      (decide (c.created_at ≤ a.created_at) : Bool) = true := by
    intro a b c h1 h2
    exact decide_eq_true (le_trans (of_decide_eq_true h2) (of_decide_eq_true h1))
  have hlatest : ∀ g ∈ distinct_game_ids (userLogs st u),
      ∃ e, latest_play (userLogs st u) g = some e ∧ e ∈ userLogs st u ∧
        e.game_id = g ∧
        ∀ e' ∈ userLogs st u, e'.game_id = g → e'.created_at ≤ e.created_at := by
    intro g hg
    obtain ⟨e0, he0, he0g⟩ := List.mem_map.mp (List.mem_dedup.mp hg)
    have hne : (userLogs st u).filter (fun e => e.game_id == g) ≠ [] := by
      intro hnil
      have h : e0 ∈ (userLogs st u).filter (fun e => e.game_id == g) :=
        List.mem_filter.mpr ⟨he0, by simp [he0g]⟩
      rw [hnil] at h
      simp at h
    have hsne := sortBy_ne_nil
      (fun a b => decide (b.created_at ≤ a.created_at)) _ hne
    cases hs : sortBy (fun a b => decide (b.created_at ≤ a.created_at))
        ((userLogs st u).filter (fun e => e.game_id == g)) with
    | nil => exact absurd hs hsne
    | cons a rest =>
      have hhead : (sortBy (fun a b => decide (b.created_at ≤ a.created_at))
          ((userLogs st u).filter (fun e => e.game_id == g))).head? = some a := by
        rw [hs]; rfl
      obtain ⟨hmem, hle⟩ := sortBy_head_le _ htotT htransT _ a hhead
      obtain ⟨hau, hag⟩ := List.mem_filter.mp hmem
      refine ⟨a, hhead, hau, by simpa using hag, ?_⟩
      intro e' he' hg'
      exact of_decide_eq_true
        (hle e' (List.mem_filter.mpr ⟨he', by simp [hg']⟩))
  have hrow : ∀ g ∈ distinct_game_ids (userLogs st u),
      ∃ (e : ScoreLogEntry) (gn cn : String),
        latestRowOf st u g
          = some ⟨g, gn, e.content_id, cn, e.score, e.created_at⟩ ∧
        e ∈ userLogs st u ∧ e.game_id = g ∧
        ∀ e' ∈ userLogs st u, e'.game_id = g → e'.created_at ≤ e.created_at := by
    intro g hg
    obtain ⟨e, hlp, heu, heg, hmax⟩ := hlatest g hg
    have hes : e ∈ st.score_logs := (List.mem_filter.mp heu).1
    obtain ⟨hg1, hg2⟩ := hwf e hes
    obtain ⟨gn, hgn⟩ := Option.isSome_iff_exists.mp (heg ▸ hg1)
    obtain ⟨cn, hcn⟩ := Option.isSome_iff_exists.mp hg2
    refine ⟨e, gn, cn, ?_, heu, heg, hmax⟩
    rw [latestRowOf, hlp, Option.some_bind, hgn, Option.some_bind, hcn]
    rfl
  have hmapfst : (((distinct_game_ids (userLogs st u)).filterMap
      (latestRowOf st u)).map (fun r : LatestGamePlayed => r.game_id))
      = distinct_game_ids (userLogs st u) := by
    apply filterMap_map_fixed
    intro g hg
    obtain ⟨e, gn, cn, heq, -, -, -⟩ := hrow g hg
    exact ⟨⟨g, gn, e.content_id, cn, e.score, e.created_at⟩, heq, rfl⟩
  have hlen : (sortBy (fun a b => decide (b.last_played_time ≤ a.last_played_time))
      ((distinct_game_ids (userLogs st u)).filterMap (latestRowOf st u))).length
      = (distinct_game_ids (userLogs st u)).length := by
    rw [(sortBy_perm _ _).length_eq]
    calc ((distinct_game_ids (userLogs st u)).filterMap (latestRowOf st u)).length
        = (((distinct_game_ids (userLogs st u)).filterMap (latestRowOf st u)).map
            (fun r : LatestGamePlayed => r.game_id)).length :=
          (List.length_map _ _).symm
      _ = (distinct_game_ids (userLogs st u)).length := by rw [hmapfst]
  have hpag : paginate (sortBy
      (fun a b => decide (b.last_played_time ≤ a.last_played_time))
      ((distinct_game_ids (userLogs st u)).filterMap (latestRowOf st u))) 1 per_page
      = sortBy (fun a b => decide (b.last_played_time ≤ a.last_played_time))
        ((distinct_game_ids (userLogs st u)).filterMap (latestRowOf st u)) :=
    paginate_all _ _ (hlen ▸ hpp)
  rw [latest_games_eq, hpag]
  refine ⟨rfl, ?_, ?_, ?_, ?_⟩
  · refine ((sortBy_perm _ _).map (fun r : LatestGamePlayed => r.game_id)).trans ?_
    rw [hmapfst]
  · refine (((sortBy_perm _ _).map (fun r : LatestGamePlayed => r.game_id)).nodup_iff).mpr ?_
    rw [hmapfst]
    exact List.nodup_dedup _
  · intro r hr
    have hr' := (sortBy_perm _ _).mem_iff.mp hr
    obtain ⟨g, hg, hfg⟩ := List.mem_filterMap.mp hr'
    obtain ⟨e, gn, cn, heq, heu, heg, hmax⟩ := hrow g hg
    rw [heq] at hfg
    have hre : r = ⟨g, gn, e.content_id, cn, e.score, e.created_at⟩ :=
      (Option.some_inj.mp hfg).symm
    subst hre
    exact ⟨e, heu, heg, rfl, rfl, rfl, hmax⟩
  · have hpw := sortBy_pairwise
      (fun a b : LatestGamePlayed => decide (b.last_played_time ≤ a.last_played_time))
      (fun a b => by
        rcases le_total b.last_played_time a.last_played_time with h | h
        · exact Or.inl (decide_eq_true h)
        · exact Or.inr (decide_eq_true h))
      (fun a b c h1 h2 => decide_eq_true
        (le_trans (of_decide_eq_true h2) (of_decide_eq_true h1)))
      ((distinct_game_ids (userLogs st u)).filterMap (latestRowOf st u))
    exact hpw.imp (fun h => of_decide_eq_true h)

/-- Witness for C2 amended on the spec's example: 2 distinct users, one
row for user 1 (whose maximum 25 is attained once), and the returned
`(user_id, score)` pairs are `[(1, 25), (2, 15)]` in descending order. -/
theorem claim_C2_leaderboard_witness :
    (get_game_leaderboard_from_logs exampleStoreBestScore 1 1 20).2 = 2 ∧
    ((get_game_leaderboard_from_logs exampleStoreBestScore 1 1 20).1.filter
        (fun r => r.user_id == 1)).length
      = ((gameLogs exampleStoreBestScore 1).filter
          (fun e => e.user_id == 1 && e.score == 25)).length ∧
    ((get_game_leaderboard_from_logs exampleStoreBestScore 1 1 20).1.map
        (fun r => (r.user_id, r.score))) = [(1, 25), (2, 15)] := by
  have h := claim_C2_leaderboard exampleStoreBestScore 1 20 (by decide)
  exact ⟨h.1.trans (by decide), h.2.2.2 1 25 (by decide), by decide⟩

/-- Witness for C4 on the spec's scenario (two entries on `g1` at
`t1 = 10 < t2 = 20`, one on `g2` at `t3 = 30`): exactly 2 summaries, and
the `g1` summary reflects the entry at `t2 = 20` (not `t1`). -/
theorem claim_C4_latest_games_witness :
    (get_latest_games_played_from_logs exampleStoreLatest 9 1 20).2 = 2 ∧
    (get_latest_games_played_from_logs exampleStoreLatest 9 1 20).1.length = 2 ∧
    ((get_latest_games_played_from_logs exampleStoreLatest 9 1 20).1.map
        (fun r => (r.game_id, r.last_played_time))) = [(2, 30), (1, 20)] := by
  have h := claim_C4_latest_games exampleStoreLatest 9 20 (by decide) (by decide)
  exact ⟨h.1.trans (by decide), by decide, by decide⟩

/-- Witness for C9: a concrete store with one pre-existing entry; after an
appending operation the entry is still stored unchanged. -/
theorem claim_C9_append_only_witness :
    (⟨100, 1, 1, 2, 10, none, 1, none, none, none, none, 1⟩ : ScoreLogEntry) ∈
      (([CoreOp.append 2 ⟨1, 2, 5, none, 1, none, none, none, none⟩ 101 7].foldl
        applyCoreOp exampleStoreBestScore).score_logs) := by
  exact (claim_C9_append_only exampleStoreBestScore
    [CoreOp.append 2 ⟨1, 2, 5, none, 1, none, none, none, none⟩ 101 7]).2
    ⟨100, 1, 1, 2, 10, none, 1, none, none, none, none, 1⟩ (by decide)
